import Mathlib

/-
Shallow embedding of the Sample subsystem of `src/emu_like/sample.py`
(class `Sample`): loading, generation, resumption, joining and
train/test splitting of (x, y) data sets.

Matrices are lists of rows over an ordered value type `α`; the float
predicate `np.isfinite` is modelled by an explicit `isFinite : α → Bool`
argument, so that value types with a non-finite element (for instance
`WithTop ℚ`, whose `⊤` plays the role of `inf`) can instantiate it.
-/

namespace PlanckEmu

/-- Column selections passed to `Sample._load_array`.  The source uses
`slice(None)` (all columns), `slice(None, -1)` (all but the last column,
the single-file default for x), `slice(-1, None)` (the last column only,
the single-file default for y), or an explicit index list. -/
inductive Columns where
  | all
  | initCols
  | lastCol
  | idxList (idx : List Nat)
deriving DecidableEq

/-- Apply a column selection to one row (or to a list of names), with the
numpy slicing semantics of `array[:, columns]`. -/
def Columns.apply (c : Columns) (row : List β) : List β :=
  match c with
  | .all => row
  | .initCols => row.dropLast
  | .lastCol => row.drop (row.length - 1)
  | .idxList idx => idx.filterMap (fun i => row[i]?)

/-- A whitespace-delimited numeric table on disk, as `np.genfromtxt` plus
`Sample._try_to_load_names_array` see it: the data rows, and the names
carried by the last leading comment line (already split on tabs), `none`
when the file has no comment line. -/
structure DataFile (α : Type) where
  header : Option (List String)
  rows : List (List α)

/-- Shape along axis 1 of a rectangular array built from a row list
(`array.shape[1]`). -/
def cols (m : List (List α)) : Nat := (m.headD []).length

/-- Columnwise fold over a rectangular row list, the shape of
`np.min(m, axis=0)` / `np.max(m, axis=0)`.  Total where numpy rejects an
empty axis, a case the Sample lifecycle cannot produce. -/
def colFold (f : α → α → α) : List (List α) → List α
  | [] => []
  | [r] => r
  | r :: rs => List.zipWith f r (colFold f rs)

/-- Columnwise minimum, `np.min(m, axis=0)`. -/
def colMin [LinearOrder α] (m : List (List α)) : List α := colFold min m

/-- Columnwise maximum, `np.max(m, axis=0)`. -/
def colMax [LinearOrder α] (m : List (List α)) : List α := colFold max m

/-- Per-column (min, max) pairs of a matrix: `list(zip(np.min(x, axis=0),
np.max(x, axis=0)))` in `load`, identical to the `np.stack((min, max)).T`
pairs built in `join`. -/
def ranges [LinearOrder α] (m : List (List α)) : List (α × α) :=
  (colMin m).zip (colMax m)

/-- Name validation of `Sample._try_to_load_names_array`: names extracted
from the last leading comment line are returned only when their count
matches the column count `n`; with the source's falsy test `if n_names:`
a zero column count skips validation. -/
def tryLoadNames (header : Option (List String)) (n : Nat) : Option (List String) :=
  match header with
  | none => none
  | some ns => if n ≠ 0 then (if ns.length = n then some ns else none) else some ns

/-- The settings dictionary persisted with a generated sample.  The full
dictionary also records the sampled-function identifier, its parameters
and the spacing, which only feed the external registry dispatch; the
resolved function is passed explicitly to `generate`/`resume`, so only
the numeric field consumed by `resume` is kept. -/
structure Settings where
  n_samples : Nat
deriving DecidableEq

/-- Modelled from the spec: the settings loader (`Params.load`, outside
`src/`) reads a structured key-value document at
`os.path.join(path, params_name)`.  Reading through a path whose prefix
is a regular file fails with `NotADirectoryError`; a missing file inside
an existing directory fails with `FileNotFoundError`; an unreadable or
unparseable document fails with a parse error; otherwise it returns the
settings. -/
inductive SettingsResult where
  | ok (s : Settings)
  | errNotADirectory
  | errFileNotFound
  | errParse
deriving DecidableEq

/-- The filesystem facts `Sample.load` consults for a given `(path,
path_y)` pair: whether `path` is a directory or a file, the outcome of
the settings read, and the file contents at each resolvable location
(the explicit pair, the two fixed-name files inside the directory, or
the single combined file). -/
structure FS (α : Type) where
  isDir : Bool
  isFile : Bool
  settingsResult : SettingsResult
  pairFiles : DataFile α × DataFile α
  dirFiles : DataFile α × DataFile α
  singleFile : DataFile α

/-- Failure modes of `Sample.load`: the path-classification failure
(`FileNotFoundError('Something is wrong with your sample path ...')`,
the spec's `InvalidPathError`) and an uncaught exception escaping the
settings read. -/
inductive LoadError where
  | invalidPath
  | settingsLoad
deriving DecidableEq

/-- The state of a `Sample` object: every attribute set in
`Sample.__init__` starts as `None`, modelled by `Option` (the matrices
start as empty row lists). -/
structure Sample (α : Type) where
  x : List (List α) := []
  y : List (List α) := []
  x_names : Option (List String) := none
  y_names : Option (List String) := none
  n_samples : Option Nat := none
  n_x : Option Nat := none
  n_y : Option Nat := none
  settings : Option Settings := none
  path : Option String := none
  x_train : Option (List (List α)) := none
  y_train : Option (List (List α)) := none
  x_test : Option (List (List α)) := none
  y_test : Option (List (List α)) := none
  x_ranges : Option (List (α × α)) := none

/-- A freshly constructed `Sample()`. -/
def Sample.empty : Sample α := {}

/-- Array loading of `Sample._load_array`: read the table, validate the
header names against the full column count, then apply the column
selection to the array and (when present) to the names; `names[columns]`
on `None` raises `TypeError`, which the source swallows, leaving `None`. -/
def Sample.loadArray (file : DataFile α) (columns : Columns) :
    List (List α) × Option (List String) :=
  let names := tryLoadNames file.header (cols file.rows)
  (file.rows.map columns.apply, names.map columns.apply)

/-- The row mask `np.any(np.isfinite(self.y), axis=1)` of `Sample.load`:
row `i` is kept when its y row contains at least one finite value. -/
def onlyFinites (isFinite : α → Bool) (y : List (List α)) : List Bool :=
  y.map (fun row => row.any isFinite)

/-- Boolean-mask row selection, `m[mask]` for a numpy boolean mask. -/
def applyMask (mask : List Bool) (m : List (List α)) : List (List α) :=
  (mask.zip m).filterMap (fun p => if p.1 then some p.2 else none)

/-- Python truthiness of an optional string argument, as tested by
`if path and path_y:`. -/
def strGiven : Option String → Bool
  | some p => p ≠ ""
  | none => false

/-- `Sample.load`.  The settings read comes first and catches only
`NotADirectoryError` (a warning, the attribute untouched); then the path
is classified as explicit pair / directory / single combined file (the
single-file case overriding the column defaults to all-but-last for x
and last-only for y, and only the directory case setting `self.path`);
finally the arrays are read, `x_ranges` is computed before the optional
non-finite filter, and the counts are taken from the resulting shapes.
Row masking in numpy keeps the column dimension, so `n_x`/`n_y` are the
widths of the unfiltered arrays. -/
def Sample.load [LinearOrder α] (s : Sample α) (fs : FS α) (path : String)
    (path_y : Option String) (columns_x columns_y : Columns)
    (remove_non_finite : Bool) (isFinite : α → Bool) :
    Except LoadError (Sample α) := do
  let settings? ← match fs.settingsResult with
    | .ok st => Except.ok (some st)
    | .errNotADirectory => Except.ok s.settings
    | .errFileNotFound => Except.error LoadError.settingsLoad
    | .errParse => Except.error LoadError.settingsLoad
  let (fx, fy, cx, cy, pathAttr) ←
    if path ≠ "" ∧ strGiven path_y then
      Except.ok (fs.pairFiles.1, fs.pairFiles.2, columns_x, columns_y, s.path)
    else if fs.isDir then
      Except.ok (fs.dirFiles.1, fs.dirFiles.2, columns_x, columns_y, some path)
    else if fs.isFile then
      Except.ok (fs.singleFile, fs.singleFile, Columns.initCols, Columns.lastCol, s.path)
    else
      Except.error LoadError.invalidPath
  let xl := Sample.loadArray fx cx
  let yl := Sample.loadArray fy cy
  let xr := ranges xl.1
  let mask := onlyFinites isFinite yl.1
  let x1 := if remove_non_finite then applyMask mask xl.1 else xl.1
  let y1 := if remove_non_finite then applyMask mask yl.1 else yl.1
  Except.ok { s with
    x := x1, y := y1,
    x_names := xl.2, y_names := yl.2,
    x_ranges := some xr,
    n_samples := some x1.length,
    n_x := some (cols xl.1),
    n_y := some (cols yl.1),
    settings := settings?,
    path := pathAttr }

/-- A sampled function from `sampling_functions.py`, as called by
`generate`/`resume`: `fun(x_row, x_names, params, model=None)` returns
`(y_val, y_names, model)`.  The parameters dictionary is fixed at
resolution time; a Lean function is deterministic, matching the
deterministic-sampled-function hypothesis of the spec. -/
structure SampledFun (α : Type) (μ : Type) where
  eval : List α → Option (List String) → Option μ → List α × List String × μ

/-- In-memory effect of `Sample.generate` once the external sampler has
produced the x matrix (its `get_x` contract makes `x` have `n_samples`
rows) and the varying-parameter names: store the settings, the x matrix
and its width, bootstrap the sampled function on `x[0]` without model
state to obtain the first y row, `y_names` and the model, then evaluate
every remaining row reusing that model.  `x[0]` on an empty matrix
raises `IndexError`, modelled by `none`.  Neither `self.n_samples` nor
`self.x_ranges` is assigned. -/
def Sample.generate (s : Sample α) (f : SampledFun α μ) (n_samples : Nat)
    (x_names : List String) (x : List (List α)) : Option (Sample α) :=
  match x with
  | [] => none
  | x0 :: xrest =>
    let r0 := f.eval x0 (some x_names) none
    let ys := r0.1 :: xrest.map (fun xr => (f.eval xr (some x_names) (some r0.2.2)).1)
    some { s with
      settings := some { n_samples := n_samples },
      x_names := some x_names,
      x := x0 :: xrest,
      n_x := some (cols (x0 :: xrest)),
      y := ys,
      y_names := some r0.2.1,
      n_y := some (cols ys) }

/-- `Sample.resume`: `remaining_steps = settings['n_samples'] -
y.shape[0]` (a Python integer, possibly negative); when zero the method
is a no-op, otherwise the sampled function is bootstrapped again on
`x[0]` to rebuild the model state and every x row from index `y.rows`
onward is evaluated and appended to `y`.  Missing settings
(`self.settings['n_samples']` on `None`) and the `x[0]` access on an
empty matrix are the failure cases modelled by `none`. -/
def Sample.resume (s : Sample α) (f : SampledFun α μ) : Option (Sample α) :=
  match s.settings with
  | none => none
  | some st =>
    let remaining : Int := (st.n_samples : Int) - (s.y.length : Int)
    if remaining = 0 then some s
    else
      match s.x with
      | [] => none
      | x0 :: _ =>
        let r0 := f.eval x0 s.x_names none
        let newRows := (s.x.drop s.y.length).map
          (fun xr => (f.eval xr s.x_names (some r0.2.2)).1)
        some { s with y := s.y ++ newRows }

/-- Failure modes of `Sample.join`: `samples[0]` on an empty list
(`IndexError`), and the `ValueError` raised when the inputs disagree on
`n_x` or on `n_y` (the spec's `IncompatibleSampleError`). -/
inductive JoinError where
  | empty
  | incompatible
deriving DecidableEq

/-- `Sample.join`: check that every input shares `samples[0]`'s `n_x`,
then its `n_y`, raising otherwise; on success build a new sample whose
`x`/`y` are the `np.vstack` row concatenations, whose `x_ranges` are the
per-column (min, max) pairs of the concatenated x, whose names come from
the first input, and whose `n_samples` is the Python sum of the inputs'
`n_samples` (a sum over `None` raises, modelled by `mapM`). -/
def Sample.join [LinearOrder α] (samples : List (Sample α)) :
    Except JoinError (Sample α) :=
  match samples with
  | [] => Except.error JoinError.empty
  | s0 :: rest =>
    if (s0 :: rest).all (fun s => s.n_x = s0.n_x) then
      if (s0 :: rest).all (fun s => s.n_y = s0.n_y) then
        let xcat := ((s0 :: rest).map Sample.x).flatten
        let ycat := ((s0 :: rest).map Sample.y).flatten
        Except.ok { Sample.empty with
          n_x := s0.n_x,
          n_y := s0.n_y,
          x := xcat,
          x_ranges := some (ranges xcat),
          y := ycat,
          x_names := s0.x_names,
          y_names := s0.y_names,
          n_samples := ((s0 :: rest).mapM Sample.n_samples).map List.sum }
      else Except.error JoinError.incompatible
    else Except.error JoinError.incompatible

/-- Row selection by an index list, numpy fancy indexing `m[idx]` as
used on the shuffled index permutation inside sklearn. -/
def pickRows (m : List (List α)) (idx : List Nat) : List (List α) :=
  idx.filterMap (fun i => m[i]?)

/-- Modelled from the spec: `sklearn.model_selection.train_test_split`
(an external collaborator) draws a seed-determined permutation of the
row indices, takes the first `n - n_train` entries as the test indices
and the rest as the train indices, and indexes `x` and `y` with the same
two index lists, so that rows stay paired.  The pseudo-random generator
is abstracted as `rng : seed → n → permutation`.  `Sample.train_test_split`
stores the four resulting arrays. -/
def Sample.train_test_split (s : Sample α) (rng : Int → Nat → List Nat)
    (frac_train : ℚ) (seed : Int) : Sample α :=
  let n := s.x.length
  let nTrain := (frac_train * n).floor.toNat
  let perm := rng seed n
  let testIdx := perm.take (n - nTrain)
  let trainIdx := perm.drop (n - nTrain)
  { s with
    x_train := some (pickRows s.x trainIdx),
    x_test := some (pickRows s.x testIdx),
    y_train := some (pickRows s.y trainIdx),
    y_test := some (pickRows s.y testIdx) }

/-- The filesystem state of a canonical sample directory: `path` is a
directory holding the two fixed-name data files and a readable settings
file. -/
def fsDir (st : Settings) (xf yf : DataFile α) : FS α :=
  { isDir := true
    isFile := false
    settingsResult := SettingsResult.ok st
    pairFiles := (xf, yf)
    dirFiles := (xf, yf)
    singleFile := xf }

/-- A concrete deterministic sampled function over `ℚ`, used to
instantiate theorems: it returns the x row itself as the y row. -/
def idFun : SampledFun ℚ Unit := ⟨fun xr _ _ => (xr, ["b"], ())⟩

/-- A two-row canonical directory over `WithTop ℚ` whose second y column
contains the non-finite value `⊤` in the first row. -/
def c2fs : FS (WithTop ℚ) :=
  fsDir ⟨2⟩ ⟨some ["a"], [[1], [2]]⟩ ⟨some ["u", "v"], [[5, ⊤], [6, 7]]⟩

/-- C2: the non-finite filter keeps a row whose y part mixes finite and
non-finite values.  Loading `c2fs` with `remove_non_finite` requested,
where the first y row is `[5, ⊤]` (one finite value, one infinite),
keeps both rows and returns `n_samples = 2`, because the source builds
the mask with `np.any(np.isfinite(self.y), axis=1)`; the claim (and the
method's own docstring) require that row to be dropped and
`n_samples = 1`. -/
theorem c2_load_keeps_row_with_non_finite_y :
    (Sample.empty : Sample (WithTop ℚ)).load c2fs "d" none .all .all true
        (fun v => v ≠ ⊤) =
      Except.ok { Sample.empty with
        x := [[1], [2]], y := [[5, ⊤], [6, 7]],
        x_names := some ["a"], y_names := some ["u", "v"],
        x_ranges := some [(1, 2)],
        n_samples := some 2, n_x := some 1, n_y := some 2,
        settings := some ⟨2⟩, path := some "d" } := by
  rfl

/-- A canonical two-row directory over `ℚ`, used to exercise the
settings-failure branches of `load`. -/
def c7xf : DataFile ℚ := ⟨some ["a"], [[1], [2]]⟩

/-- The matching y file for `c7xf`. -/
def c7yf : DataFile ℚ := ⟨some ["u"], [[3], [4]]⟩

/-- The y matrix computed by `generate`: the bootstrap row on `x[0]`
followed by one evaluation per remaining row, all reusing the bootstrap
model state. -/
def genY (f : SampledFun α μ) (xn : List String) (x0 : List α)
    (xs : List (List α)) : List (List α) :=
  (f.eval x0 (some xn) none).1 ::
    xs.map (fun xr => (f.eval xr (some xn) (some (f.eval x0 (some xn) none).2.2)).1)

/-- The consistency invariant stated by the spec: the row counts of `x`
and `y` agree with `n_samples`, and `n_x`/`n_y` are the column counts of
`x` and `y`. -/
def consistent (s : Sample α) : Prop :=
  s.n_samples = some s.x.length ∧ s.y.length = s.x.length ∧
  s.n_x = some (cols s.x) ∧ s.n_y = some (cols s.y)

/-- A loaded one-row sample with one x column, used to instantiate the
join theorems. -/
def c4sA : Sample ℚ :=
  { Sample.empty with
    x := [[1]], y := [[5]], n_samples := some 1, n_x := some 1,
    n_y := some 1 }

/-- A loaded one-row sample with two x columns, incompatible with
`c4sA`. -/
def c4sB : Sample ℚ :=
  { Sample.empty with
    x := [[1, 2]], y := [[6]], n_samples := some 1, n_x := some 2,
    n_y := some 1 }

/-- A loaded two-row sample with two x columns, used to instantiate the
join-result theorem. -/
def c6s : Sample ℚ :=
  { Sample.empty with
    x := [[1, 2], [3, 0]], y := [[5], [6]], n_samples := some 2,
    n_x := some 2, n_y := some 1 }

/-- A loaded three-row sample used to instantiate the train/test-split
theorem. -/
def c8s : Sample ℚ :=
  { Sample.empty with
    x := [[1], [2], [3]], y := [[4], [5], [6]], n_samples := some 3,
    n_x := some 1, n_y := some 1 }

/-- A concrete deterministic stand-in for the seed-indexed pseudo-random
permutation generator used by the splitter. -/
def c8rng : Int → Nat → List Nat := fun _ n => (List.range n).reverse

/-- A filesystem whose `path` is a single combined three-column file
with no header comment line. -/
def c9fs : FS ℚ :=
  { isDir := false, isFile := true, settingsResult := SettingsResult.ok ⟨1⟩,
    pairFiles := (⟨none, []⟩, ⟨none, []⟩), dirFiles := (⟨none, []⟩, ⟨none, []⟩),
    singleFile := ⟨none, [[1, 2, 3], [4, 5, 6]]⟩ }

/-- C7: a missing settings file aborts `load`.  When `path` is a
directory whose settings file is absent, the settings read fails with
`FileNotFoundError`, which the `except NotADirectoryError` clause does
not catch, so `load` fails instead of warning and proceeding; only the
`NotADirectoryError` failure (second conjunct, the single-file case) is
survived with `settings` left unset. -/
theorem c7_missing_settings_file_aborts_load :
    (Sample.empty : Sample ℚ).load
        { fsDir ⟨2⟩ c7xf c7yf with settingsResult := SettingsResult.errFileNotFound }
        "d" none .all .all false (fun _ => true) =
      Except.error LoadError.settingsLoad
    ∧ (Sample.empty : Sample ℚ).load
        { fsDir ⟨2⟩ c7xf c7yf with settingsResult := SettingsResult.errNotADirectory }
        "d" none .all .all false (fun _ => true) =
      Except.ok { Sample.empty with
        x := [[1], [2]], y := [[3], [4]],
        x_names := some ["a"], y_names := some ["u"],
        x_ranges := some [(1, 2)],
        n_samples := some 2, n_x := some 1, n_y := some 1,
        settings := none, path := some "d" } :=
  ⟨rfl, rfl⟩

/-- C3 counterexample: `generate` never assigns `self.n_samples`.  On a
fresh sample, generating one row leaves `n_samples = none` while the
generated `x` and `y` both have one row, so the claimed equality
`x.rows == y.rows == n_samples` after `generate` fails at this input. -/
theorem c3_generate_leaves_n_samples_unset :
    ((Sample.empty : Sample ℚ).generate idFun 1 ["a"] [[5]]).map
        (fun s => (s.n_samples, s.x.length, s.y.length)) = some (none, 1, 1)
    ∧ (none : Option Nat) ≠ some 1 :=
  ⟨rfl, by decide⟩

/-- C10: the bootstrap access to row 0.  `generate` on an empty x matrix
fails (the unconditional `self.x[0]` is out of bounds), `resume` with a
nonzero remaining count fails on an empty x matrix, and with at least
one x row both bootstrap accesses always succeed. -/
theorem c10_bootstrap_requires_nonempty_x {α μ : Type} (f : SampledFun α μ) :
    (∀ (s : Sample α) (n : Nat) (xn : List String), s.generate f n xn [] = none)
    ∧ (∀ (s : Sample α) (st : Settings), s.settings = some st → s.x = [] →
        (st.n_samples : Int) ≠ (s.y.length : Int) → s.resume f = none)
    ∧ (∀ (s : Sample α) (n : Nat) (xn : List String) (x0 : List α)
        (xs : List (List α)), (s.generate f n xn (x0 :: xs)).isSome = true)
    ∧ (∀ (s : Sample α) (st : Settings) (x0 : List α) (xs : List (List α)),
        s.settings = some st → s.x = x0 :: xs → (s.resume f).isSome = true) := by
  refine ⟨fun s n xn => rfl, fun s st hset hx hrem => ?_,
    fun s n xn x0 xs => rfl, fun s st x0 xs hset hx => ?_⟩
  · simp only [Sample.resume, hset, hx]
    rw [if_neg (by exact_mod_cast sub_ne_zero_of_ne hrem)]
  · simp only [Sample.resume, hset, hx]
    by_cases h : (st.n_samples : Int) - ((s.y.length : Nat) : Int) = 0 <;>
      simp [h]

/-- C10 witness: concrete instances of the four bootstrap facts. -/
theorem c10_witness :
    (Sample.empty : Sample ℚ).generate idFun 1 ["a"] [] = none
    ∧ ({ Sample.empty with settings := some ⟨3⟩, y := [[1]] } : Sample ℚ).resume
        idFun = none
    ∧ ((Sample.empty : Sample ℚ).generate idFun 1 ["a"] [[5]]).isSome = true
    ∧ (({ Sample.empty with settings := some ⟨3⟩, x := [[1]], y := [[1]] } :
        Sample ℚ).resume idFun).isSome = true := by
  refine ⟨(c10_bootstrap_requires_nonempty_x idFun).1 _ 1 ["a"],
    (c10_bootstrap_requires_nonempty_x idFun).2.1 _ ⟨3⟩ rfl rfl (by decide),
    (c10_bootstrap_requires_nonempty_x idFun).2.2.1 _ 1 ["a"] [5] [],
    (c10_bootstrap_requires_nonempty_x idFun).2.2.2 _ ⟨3⟩ [1] [] rfl rfl⟩

lemma columns_apply_all_fun {β : Type} : Columns.apply (β := β) Columns.all = id := rfl

lemma load_dir_all_eq {α : Type} [LinearOrder α] (s : Sample α) (st : Settings)
    (xh yh : Option (List String)) (xrows yrows : List (List α))
    (isF : α → Bool) :
    s.load (fsDir st ⟨xh, xrows⟩ ⟨yh, yrows⟩) "d" none .all .all false isF =
      Except.ok { s with
        x := xrows, y := yrows,
        x_names := tryLoadNames xh (cols xrows),
        y_names := tryLoadNames yh (cols yrows),
        x_ranges := some (ranges xrows),
        n_samples := some xrows.length,
        n_x := some (cols xrows),
        n_y := some (cols yrows),
        settings := some st,
        path := some "d" } := by
  simp [Sample.load, fsDir, Sample.loadArray, Bind.bind,
    Except.bind, strGiven, columns_apply_all_fun]

lemma resume_eq {α μ : Type} (f : SampledFun α μ) (s : Sample α) (st : Settings)
    (hset : s.settings = some st)
    (hne : (st.n_samples : Int) ≠ (s.y.length : Int))
    (x0 : List α) (xs : List (List α)) (hx : s.x = x0 :: xs) :
    s.resume f = some { s with
      y := s.y ++ List.map
        (fun xr => (f.eval xr s.x_names (some (f.eval x0 s.x_names none).2.2)).1)
        (List.drop s.y.length (x0 :: xs)) } := by
  simp only [Sample.resume, hset, hx]
  rw [if_neg (by exact_mod_cast sub_ne_zero_of_ne hne)]

/-- The y matrix computed by `generate`: the bootstrap row on `x[0]`
followed by one evaluation per remaining row, all reusing the bootstrap
model state. -/

lemma generate_eq {α μ : Type} (s : Sample α) (f : SampledFun α μ) (n : Nat)
    (xn : List String) (x0 : List α) (xs : List (List α)) :
    s.generate f n xn (x0 :: xs) = some { s with
      settings := some ⟨n⟩,
      x_names := some xn,
      x := x0 :: xs,
      n_x := some (cols (x0 :: xs)),
      y := genY f xn x0 xs,
      y_names := some (f.eval x0 (some xn) none).2.1,
      n_y := some (cols (genY f xn x0 xs)) } := rfl

lemma mapM_n_samples_eq {α : Type} (g : Sample α → Nat) :
    ∀ l : List (Sample α), (∀ s ∈ l, s.n_samples = some (g s)) →
      l.mapM Sample.n_samples = some (l.map g)
  | [], _ => rfl
  | s :: l, h => by
    rw [List.mapM_cons, h s (List.mem_cons_self s l),
      mapM_n_samples_eq g l (fun q hq => h q (List.mem_cons_of_mem s hq))]
    rfl

lemma cols_append_left {α : Type} (m t : List (List α)) (h : m ≠ []) :
    cols (m ++ t) = cols m := by
  cases m with
  | nil => exact absurd rfl h
  | cons r rs => rfl

lemma pickRows_cons {m : List (List α)} {j : Nat} {idx : List Nat}
    (hj : j < m.length) :
    pickRows m (j :: idx) = m[j] :: pickRows m idx := by
  simp [pickRows, List.filterMap_cons, List.getElem?_eq_getElem hj]

lemma pickRows_length (m : List (List α)) :
    ∀ idx : List Nat, (∀ j ∈ idx, j < m.length) →
      (pickRows m idx).length = idx.length
  | [], _ => rfl
  | j :: idx, h => by
    rw [pickRows_cons (h j (List.mem_cons_self j idx))]
    simp only [List.length_cons]
    rw [pickRows_length m idx (fun i hi => h i (List.mem_cons_of_mem j hi))]

lemma pickRows_getElem? (m : List (List α)) :
    ∀ (idx : List Nat), (∀ j ∈ idx, j < m.length) →
      ∀ (i : Nat) (hi : i < idx.length),
        (pickRows m idx)[i]? = m[idx[i]]?
  | j :: idx, h, 0, _ => by
    rw [pickRows_cons (h j (List.mem_cons_self j idx))]
    simp [List.getElem?_eq_getElem (h j (List.mem_cons_self j idx))]
  | j :: idx, h, i + 1, hi => by
    rw [pickRows_cons (h j (List.mem_cons_self j idx))]
    simp only [List.getElem?_cons_succ, List.getElem_cons_succ]
    exact pickRows_getElem? m idx (fun q hq => h q (List.mem_cons_of_mem j hq)) i
      (by simpa using hi)

lemma colFold_length (f : α → α → α) (w : Nat) :
    ∀ m : List (List α), m ≠ [] → (∀ r ∈ m, r.length = w) →
      (colFold f m).length = w
  | [], h, _ => absurd rfl h
  | [r], _, hw => hw r (by simp)
  | r :: r' :: rs, _, hw => by
    have ih := colFold_length f w (r' :: rs) (by simp)
      (fun q hq => hw q (List.mem_cons_of_mem r hq))
    show (List.zipWith f r (colFold f (r' :: rs))).length = w
    rw [List.length_zipWith, ih, hw r (List.mem_cons_self _ _), min_self]

lemma colFold_getD_cons (f : α → α → α) (w : Nat) (d : α) (q q' : List α)
    (qs : List (List α)) (hw : ∀ r ∈ q :: q' :: qs, r.length = w)
    (j : Nat) (hj : j < w) :
    (colFold f (q :: q' :: qs)).getD j d
      = f (q.getD j d) ((colFold f (q' :: qs)).getD j d) := by
  have hq : q.length = w := hw q (List.mem_cons_self _ _)
  have hct : (colFold f (q' :: qs)).length = w :=
    colFold_length f w _ (by simp) (fun p hp => hw p (List.mem_cons_of_mem q hp))
  have hlen : (List.zipWith f q (colFold f (q' :: qs))).length = w := by
    rw [List.length_zipWith, hq, hct, min_self]
  show (List.zipWith f q (colFold f (q' :: qs))).getD j d = _
  rw [List.getD_eq_getElem _ d (by rw [hlen]; exact hj),
    List.getD_eq_getElem _ d (by rw [hq]; exact hj),
    List.getD_eq_getElem _ d (by rw [hct]; exact hj), List.getElem_zipWith]

lemma colMin_le {α : Type} [LinearOrder α] (w : Nat) (d : α) :
    ∀ m : List (List α), (∀ r ∈ m, r.length = w) →
      ∀ r ∈ m, ∀ j, j < w → (colMin m).getD j d ≤ r.getD j d
  | [], _, r, hr, _, _ => absurd hr (List.not_mem_nil r)
  | [q], _, r, hr, j, _ => by
    obtain rfl : r = q := List.mem_singleton.mp hr
    exact le_refl _
  | q :: q' :: qs, hw, r, hr, j, hj => by
    have hwtail : ∀ p ∈ q' :: qs, p.length = w :=
      fun p hp => hw p (List.mem_cons_of_mem q hp)
    rw [show colMin (q :: q' :: qs) = colFold min (q :: q' :: qs) from rfl,
      colFold_getD_cons min w d q q' qs hw j hj]
    rcases List.mem_cons.mp hr with rfl | hr'
    · exact min_le_left _ _
    · exact le_trans (min_le_right _ _) (colMin_le w d (q' :: qs) hwtail r hr' j hj)

lemma colMin_mem {α : Type} [LinearOrder α] (w : Nat) (d : α) :
    ∀ m : List (List α), m ≠ [] → (∀ r ∈ m, r.length = w) →
      ∀ j, j < w → ∃ r ∈ m, (colMin m).getD j d = r.getD j d
  | [], h, _, _, _ => absurd rfl h
  | [q], _, _, j, _ => ⟨q, by simp, rfl⟩
  | q :: q' :: qs, _, hw, j, hj => by
    have hwtail : ∀ p ∈ q' :: qs, p.length = w :=
      fun p hp => hw p (List.mem_cons_of_mem q hp)
    have hval := colFold_getD_cons min w d q q' qs hw j hj
    rcases le_total (q.getD j d) ((colFold min (q' :: qs)).getD j d) with hle | hle
    · exact ⟨q, List.mem_cons_self _ _, by
        rw [show colMin (q :: q' :: qs) = colFold min (q :: q' :: qs) from rfl,
          hval]
        exact min_eq_left hle⟩
    · obtain ⟨r, hr, heq⟩ := colMin_mem w d (q' :: qs) (by simp) hwtail j hj
      exact ⟨r, List.mem_cons_of_mem q hr, by
        rw [show colMin (q :: q' :: qs) = colFold min (q :: q' :: qs) from rfl,
          hval, min_eq_right hle]
        exact heq⟩

lemma colMax_ge {α : Type} [LinearOrder α] (w : Nat) (d : α) :
    ∀ m : List (List α), (∀ r ∈ m, r.length = w) →
      ∀ r ∈ m, ∀ j, j < w → r.getD j d ≤ (colMax m).getD j d
  | [], _, r, hr, _, _ => absurd hr (List.not_mem_nil r)
  | [q], _, r, hr, j, _ => by
    obtain rfl : r = q := List.mem_singleton.mp hr
    exact le_refl _
  | q :: q' :: qs, hw, r, hr, j, hj => by
    have hwtail : ∀ p ∈ q' :: qs, p.length = w :=
      fun p hp => hw p (List.mem_cons_of_mem q hp)
    rw [show colMax (q :: q' :: qs) = colFold max (q :: q' :: qs) from rfl,
      colFold_getD_cons max w d q q' qs hw j hj]
    rcases List.mem_cons.mp hr with rfl | hr'
    · exact le_max_left _ _
    · exact le_trans (colMax_ge w d (q' :: qs) hwtail r hr' j hj)
        (le_max_right _ _)

lemma colMax_mem {α : Type} [LinearOrder α] (w : Nat) (d : α) :
    ∀ m : List (List α), m ≠ [] → (∀ r ∈ m, r.length = w) →
      ∀ j, j < w → ∃ r ∈ m, (colMax m).getD j d = r.getD j d
  | [], h, _, _, _ => absurd rfl h
  | [q], _, _, j, _ => ⟨q, by simp, rfl⟩
  | q :: q' :: qs, _, hw, j, hj => by
    have hwtail : ∀ p ∈ q' :: qs, p.length = w :=
      fun p hp => hw p (List.mem_cons_of_mem q hp)
    have hval := colFold_getD_cons max w d q q' qs hw j hj
    rcases le_total (q.getD j d) ((colFold max (q' :: qs)).getD j d) with hle | hle
    · obtain ⟨r, hr, heq⟩ := colMax_mem w d (q' :: qs) (by simp) hwtail j hj
      exact ⟨r, List.mem_cons_of_mem q hr, by
        rw [show colMax (q :: q' :: qs) = colFold max (q :: q' :: qs) from rfl,
          hval, max_eq_right hle]
        exact heq⟩
    · exact ⟨q, List.mem_cons_self _ _, by
        rw [show colMax (q :: q' :: qs) = colFold max (q :: q' :: qs) from rfl,
          hval]
        exact max_eq_left hle⟩

lemma flatten_segment {β : Type} :
    ∀ (L : List (List β)) (i : Nat) (hi : i < L.length),
      (L.flatten.drop (((L.take i).map List.length).sum)).take L[i].length = L[i]
  | l :: L, 0, _ => by
    simp only [List.take_zero, List.map_nil, List.sum_nil, List.drop_zero,
      List.flatten_cons, List.getElem_cons_zero]
    exact List.take_left l L.flatten
  | l :: L, i + 1, hi => by
    simp only [List.take_succ_cons, List.map_cons, List.sum_cons,
      List.flatten_cons, List.getElem_cons_succ]
    rw [List.drop_append]
    exact flatten_segment L i (by simpa using hi)

/-- Claim C1: resumability.  For a deterministic sampled function and
any cut point k with 0 < k < N, generating N rows in one run produces
the same y matrix, row for row, as persisting the settings, the full x
matrix and the first k generated y rows into the canonical directory,
loading that partial sample, and calling resume for the rest. -/
theorem c1_resume_matches_generate {α μ : Type} [LinearOrder α]
    (f : SampledFun α μ) (x_names : List String) (x0 : List α)
    (xs : List (List α)) (k : Nat) (yHeader : Option (List String))
    (isF : α → Bool)
    (hk1 : 1 ≤ k) (hkN : k < (x0 :: xs).length)
    (hnames : x_names.length = x0.length) :
    ∃ full mid res,
      (Sample.empty : Sample α).generate f (x0 :: xs).length x_names (x0 :: xs)
          = some full ∧
      (Sample.empty : Sample α).load
          (fsDir ⟨(x0 :: xs).length⟩ ⟨some x_names, x0 :: xs⟩
            ⟨yHeader, full.y.take k⟩)
          "d" none .all .all false isF = Except.ok mid ∧
      mid.resume f = some res ∧
      res.y = full.y := by
  obtain ⟨k, rfl⟩ : ∃ g, k = g + 1 := ⟨k - 1, by omega⟩
  have hN : k + 1 < (x0 :: xs).length := hkN
  have hylen : (genY f x_names x0 xs).length = (x0 :: xs).length := by
    simp [genY]
  have htk : ((genY f x_names x0 xs).take (k + 1)).length = k + 1 := by
    rw [List.length_take, hylen]
    omega
  have hnx : tryLoadNames (some x_names) (cols (x0 :: xs)) = some x_names := by
    unfold tryLoadNames
    by_cases h0 : cols (x0 :: xs) = 0 <;>
      simp [h0, cols] at hnames ⊢ <;> simp [hnames, h0]
  refine ⟨_, _, _, generate_eq _ f _ x_names x0 xs, load_dir_all_eq _ _ _ _ _ _ _,
    resume_eq f _ ⟨(x0 :: xs).length⟩ rfl ?_ x0 xs rfl, ?_⟩
  · show ((x0 :: xs).length : Int) ≠ (((genY f x_names x0 xs).take (k + 1)).length : Int)
    rw [htk]
    exact_mod_cast Nat.ne_of_gt hN
  · show (genY f x_names x0 xs).take (k + 1) ++ List.map
        (fun xr => (f.eval xr (tryLoadNames (some x_names) (cols (x0 :: xs)))
          (some (f.eval x0 (tryLoadNames (some x_names) (cols (x0 :: xs))) none).2.2)).1)
        (List.drop ((genY f x_names x0 xs).take (k + 1)).length (x0 :: xs))
      = genY f x_names x0 xs
    rw [hnx, htk]
    show (genY f x_names x0 xs).take (k + 1) ++ List.map
        (fun xr => (f.eval xr (some x_names)
          (some (f.eval x0 (some x_names) none).2.2)).1) (List.drop k xs)
      = genY f x_names x0 xs
    rw [List.map_drop]
    show (genY f x_names x0 xs).take (k + 1) ++
        (genY f x_names x0 xs).drop (k + 1) = genY f x_names x0 xs
    exact List.take_append_drop _ _

/-- Claim C4: for every non-empty list of samples, join raises (the
ValueError standing for IncompatibleSampleError) exactly when some input
disagrees with the first input on n_x or on n_y; when all inputs agree
on both, no error is raised. -/
theorem c4_join_raises_iff_mismatch {α : Type} [LinearOrder α] (s0 : Sample α)
    (rest : List (Sample α)) :
    (∃ e, Sample.join (s0 :: rest) = Except.error e) ↔
      ∃ s ∈ s0 :: rest, s.n_x ≠ s0.n_x ∨ s.n_y ≠ s0.n_y := by
  constructor
  · rintro ⟨e, he⟩
    by_contra hcon
    push_neg at hcon
    have hx : ((s0 :: rest).all (fun s => s.n_x = s0.n_x)) = true := by
      simp only [List.all_eq_true, decide_eq_true_eq]
      exact fun s hs => (hcon s hs).1
    have hy : ((s0 :: rest).all (fun s => s.n_y = s0.n_y)) = true := by
      simp only [List.all_eq_true, decide_eq_true_eq]
      exact fun s hs => (hcon s hs).2
    simp [Sample.join, hx, hy] at he
  · rintro ⟨s, hs, hne⟩
    by_cases hx : ((s0 :: rest).all (fun s => s.n_x = s0.n_x)) = true
    · have hy : ¬ ((s0 :: rest).all (fun s => s.n_y = s0.n_y)) = true := by
        simp only [List.all_eq_true, decide_eq_true_eq] at hx ⊢
        intro hy
        rcases hne with h | h
        · exact h (hx s hs)
        · exact h (hy s hs)
      refine ⟨JoinError.incompatible, ?_⟩
      simp [Sample.join, hx, hy]
    · refine ⟨JoinError.incompatible, ?_⟩
      simp [Sample.join, hx]

/-- Claim C5: load raises the path-classification error exactly when
path_y is not given, path is not a directory and path is not a file; in
every classifiable case no path-classification error is raised.  The
settings read, which precedes classification, is assumed not to abort
(see C7), and the strings are nondegenerate in the Python-truthiness
sense. -/
theorem c5_load_invalid_path_iff {α : Type} [LinearOrder α] (s : Sample α)
    (fs : FS α) (path : String) (path_y : Option String)
    (columns_x columns_y : Columns) (rnf : Bool) (isF : α → Bool)
    (h1 : fs.settingsResult ≠ SettingsResult.errFileNotFound)
    (h2 : fs.settingsResult ≠ SettingsResult.errParse)
    (hp : path ≠ "") (hpy : path_y ≠ some "") :
    s.load fs path path_y columns_x columns_y rnf isF
        = Except.error LoadError.invalidPath ↔
      path_y = none ∧ fs.isDir = false ∧ fs.isFile = false := by
  cases hres : fs.settingsResult with
  | errFileNotFound => exact absurd hres h1
  | errParse => exact absurd hres h2
  | ok st =>
    cases path_y with
    | none =>
      cases hd : fs.isDir <;> cases hf : fs.isFile <;>
        simp [Sample.load, hres, hd, hf, hp, strGiven, Bind.bind, Except.bind]
    | some p =>
      have hp' : p ≠ "" := fun h => hpy (by rw [h])
      simp [Sample.load, hres, hp, hp', strGiven, Bind.bind, Except.bind]
  | errNotADirectory =>
    cases path_y with
    | none =>
      cases hd : fs.isDir <;> cases hf : fs.isFile <;>
        simp [Sample.load, hres, hd, hf, hp, strGiven, Bind.bind, Except.bind]
    | some p =>
      have hp' : p ≠ "" := fun h => hpy (by rw [h])
      simp [Sample.load, hres, hp, hp', strGiven, Bind.bind, Except.bind]

/-- Claim C5 witness: an unclassifiable path (no path_y, neither
directory nor file) makes load fail with the path error. -/
theorem c5_witness :
    (Sample.empty : Sample ℚ).load
        { isDir := false, isFile := false, settingsResult := SettingsResult.ok ⟨1⟩,
          pairFiles := (⟨none, []⟩, ⟨none, []⟩), dirFiles := (⟨none, []⟩, ⟨none, []⟩),
          singleFile := ⟨none, []⟩ } "d" none .all .all false (fun _ => true)
      = Except.error LoadError.invalidPath :=
  (c5_load_invalid_path_iff _ _ _ _ _ _ _ _ (by simp) (by simp) (by decide)
    (by decide)).mpr ⟨rfl, rfl, rfl⟩

/-- Claim C9: loading a single combined file (no path_y, path not a
directory) whose table has c >= 2 columns takes x from columns 0..c-2
and y from column c-1 only, sets n_x = c-1 and n_y = 1, and, with no
header comment line, leaves both name lists unknown. -/
theorem c9_single_file_default_split {α : Type} [LinearOrder α] (s : Sample α)
    (fs : FS α) (path : String) (columns_x columns_y : Columns) (isF : α → Bool)
    (c : Nat)
    (h1 : fs.settingsResult ≠ SettingsResult.errFileNotFound)
    (h2 : fs.settingsResult ≠ SettingsResult.errParse)
    (hp : path ≠ "") (hdir : fs.isDir = false) (hfile : fs.isFile = true)
    (hhead : fs.singleFile.header = none)
    (hc : 2 ≤ c) (hrect : ∀ r ∈ fs.singleFile.rows, r.length = c)
    (hne : fs.singleFile.rows ≠ []) :
    ∃ out, s.load fs path none columns_x columns_y false isF = Except.ok out ∧
      out.x = fs.singleFile.rows.map (fun r => r.take (c - 1)) ∧
      out.y = fs.singleFile.rows.map (fun r => r.drop (c - 1)) ∧
      out.n_x = some (c - 1) ∧ out.n_y = some 1 ∧
      out.x_names = none ∧ out.y_names = none := by
  obtain ⟨r0, rs, hrows⟩ := List.exists_cons_of_ne_nil hne
  have hr0 : r0.length = c := hrect r0 (by rw [hrows]; exact List.mem_cons_self r0 rs)
  have hxarr : Sample.loadArray fs.singleFile Columns.initCols =
      (fs.singleFile.rows.map (fun r => r.take (c - 1)), none) := by
    unfold Sample.loadArray
    rw [hhead]
    simp only [tryLoadNames, Option.map_none', Prod.mk.injEq, and_true]
    refine List.map_congr_left (fun r hr => ?_)
    show r.dropLast = r.take (c - 1)
    rw [List.dropLast_eq_take, hrect r hr]
  have hyarr : Sample.loadArray fs.singleFile Columns.lastCol =
      (fs.singleFile.rows.map (fun r => r.drop (c - 1)), none) := by
    unfold Sample.loadArray
    rw [hhead]
    simp only [tryLoadNames, Option.map_none', Prod.mk.injEq, and_true]
    refine List.map_congr_left (fun r hr => ?_)
    show r.drop (r.length - 1) = r.drop (c - 1)
    rw [hrect r hr]
  have hcx : cols (fs.singleFile.rows.map (fun r => r.take (c - 1))) = c - 1 := by
    rw [hrows]
    simp [cols, hr0]
  have hcy : cols (fs.singleFile.rows.map (fun r => r.drop (c - 1))) = 1 := by
    rw [hrows]
    simp only [cols, List.map_cons, List.headD_cons, List.length_drop, hr0]
    omega
  cases hres : fs.settingsResult with
  | errFileNotFound => exact absurd hres h1
  | errParse => exact absurd hres h2
  | ok st =>
    simp only [Sample.load, hres, hdir, hfile, hp, strGiven, Bind.bind, Except.bind,
      ne_eq, not_false_iff, and_false, if_false, if_true, Bool.false_eq_true,
      false_and, ite_false, ite_true]
    simp [hxarr, hyarr, hcx, hcy]
  | errNotADirectory =>
    simp only [Sample.load, hres, hdir, hfile, hp, strGiven, Bind.bind, Except.bind,
      ne_eq, not_false_iff, and_false, if_false, if_true, Bool.false_eq_true,
      false_and, ite_false, ite_true]
    simp [hxarr, hyarr, hcx, hcy]

/-- Claim C8: the train/test split is determined by the permutation the
seed produces, the two partitions together have exactly n_samples rows,
every train (and test) row is the x/y pair of one original row index,
and the train and test origin-index lists are disjoint.  The external
sklearn shuffler is modelled as a seed-indexed permutation generator. -/
theorem c8_train_test_split_pairing {α : Type} (s : Sample α)
    (rng rng' : Int → Nat → List Nat) (frac : ℚ) (seed : Int)
    (hperm : (rng seed s.x.length).Perm (List.range s.x.length))
    (hy : s.y.length = s.x.length) :
    ((rng' seed s.x.length = rng seed s.x.length) →
        s.train_test_split rng' frac seed = s.train_test_split rng frac seed)
    ∧ (((s.train_test_split rng frac seed).x_train.getD []).length
        + ((s.train_test_split rng frac seed).x_test.getD []).length = s.x.length)
    ∧ (∀ i, i < ((s.train_test_split rng frac seed).x_train.getD []).length →
        ∃ j, j < s.x.length ∧
          ((s.train_test_split rng frac seed).x_train.getD [])[i]? = s.x[j]? ∧
          ((s.train_test_split rng frac seed).y_train.getD [])[i]? = s.y[j]?)
    ∧ (∀ i, i < ((s.train_test_split rng frac seed).x_test.getD []).length →
        ∃ j, j < s.x.length ∧
          ((s.train_test_split rng frac seed).x_test.getD [])[i]? = s.x[j]? ∧
          ((s.train_test_split rng frac seed).y_test.getD [])[i]? = s.y[j]?)
    ∧ (((rng seed s.x.length).take
          (s.x.length - (frac * s.x.length).floor.toNat)).Disjoint
        ((rng seed s.x.length).drop
          (s.x.length - (frac * s.x.length).floor.toNat))) := by
  have hmem : ∀ j ∈ rng seed s.x.length, j < s.x.length := fun j hj =>
    List.mem_range.mp (hperm.mem_iff.mp hj)
  have hlenp : (rng seed s.x.length).length = s.x.length := by
    rw [hperm.length_eq, List.length_range]
  have hnd : (rng seed s.x.length).Nodup :=
    hperm.symm.nodup (List.nodup_range s.x.length)
  have htr : ∀ j ∈ (rng seed s.x.length).drop
      (s.x.length - (frac * s.x.length).floor.toNat), j < s.x.length :=
    fun j hj => hmem j (List.mem_of_mem_drop hj)
  have hte : ∀ j ∈ (rng seed s.x.length).take
      (s.x.length - (frac * s.x.length).floor.toNat), j < s.x.length :=
    fun j hj => hmem j (List.mem_of_mem_take hj)
  refine ⟨fun h => ?_, ?_, fun i hi => ?_, fun i hi => ?_, ?_⟩
  · simp only [Sample.train_test_split, h]
  · simp only [Sample.train_test_split, Option.getD_some]
    rw [pickRows_length _ _ htr, pickRows_length _ _ hte,
      List.length_drop, List.length_take, hlenp]
    omega
  · simp only [Sample.train_test_split, Option.getD_some] at hi ⊢
    rw [pickRows_length _ _ htr] at hi
    refine ⟨((rng seed s.x.length).drop
      (s.x.length - (frac * s.x.length).floor.toNat))[i], ?_, ?_, ?_⟩
    · exact htr _ (List.getElem_mem hi)
    · exact pickRows_getElem? _ _ htr i hi
    · exact pickRows_getElem? _ _ (fun j hj => hy ▸ htr j hj) i hi
  · simp only [Sample.train_test_split, Option.getD_some] at hi ⊢
    rw [pickRows_length _ _ hte] at hi
    refine ⟨((rng seed s.x.length).take
      (s.x.length - (frac * s.x.length).floor.toNat))[i], ?_, ?_, ?_⟩
    · exact hte _ (List.getElem_mem hi)
    · exact pickRows_getElem? _ _ hte i hi
    · exact pickRows_getElem? _ _ (fun j hj => hy ▸ hte j hj) i hi
  · exact List.disjoint_take_drop hnd (le_refl _)

/-- Claim C3 as amended: after load of x/y files with equal row counts
and after join of consistent inputs the invariants
x.rows = y.rows = n_samples, n_x = x.cols and n_y = y.cols all hold;
generate establishes x.rows = y.rows, n_x = x.cols and n_y = y.cols but
leaves n_samples unchanged (None on a fresh sample); resume restores the
full invariant for a sample loaded from a partial directory. -/
theorem c3_consistency_amended {α μ : Type} [LinearOrder α] :
    (∀ (s : Sample α) (st : Settings) (xh yh : Option (List String))
        (xrows yrows : List (List α)) (isF : α → Bool),
      yrows.length = xrows.length →
      ∃ out, s.load (fsDir st ⟨xh, xrows⟩ ⟨yh, yrows⟩) "d" none .all .all false
          isF = Except.ok out ∧ consistent out)
    ∧ (∀ (s : Sample α) (f : SampledFun α μ) (n : Nat) (xn : List String)
        (x0 : List α) (xs : List (List α)) (out : Sample α),
      s.generate f n xn (x0 :: xs) = some out →
      out.y.length = out.x.length ∧ out.n_x = some (cols out.x) ∧
        out.n_y = some (cols out.y) ∧ out.n_samples = s.n_samples)
    ∧ (∀ (s : Sample α) (f : SampledFun α μ) (st : Settings) (x0 : List α)
        (xs : List (List α)),
      s.settings = some st → s.x = x0 :: xs → s.n_samples = some st.n_samples →
      s.x.length = st.n_samples → 1 ≤ s.y.length → s.y.length ≤ st.n_samples →
      s.n_x = some (cols s.x) → s.n_y = some (cols s.y) →
      ∃ out, s.resume f = some out ∧ consistent out)
    ∧ (∀ (s0 : Sample α) (rest : List (Sample α)),
      (∀ s ∈ s0 :: rest, consistent s) →
      (∀ s ∈ s0 :: rest, s.n_x = s0.n_x) → (∀ s ∈ s0 :: rest, s.n_y = s0.n_y) →
      s0.x ≠ [] → s0.y ≠ [] →
      ∃ out, Sample.join (s0 :: rest) = Except.ok out ∧ consistent out) := by
  refine ⟨fun s st xh yh xrows yrows isF hlen => ?_,
    fun s f n xn x0 xs out hgen => ?_,
    fun s f st x0 xs hset hx hns hxlen hy1 hyle hnx hny => ?_,
    fun s0 rest hcons hx hy hx0 hy0 => ?_⟩
  · rw [load_dir_all_eq]
    exact ⟨_, rfl, rfl, hlen, rfl, rfl⟩
  · rw [generate_eq] at hgen
    obtain rfl : _ = out := Option.some.inj hgen
    refine ⟨?_, rfl, rfl, rfl⟩
    simp [genY]
  · by_cases heq : s.y.length = st.n_samples
    · refine ⟨s, ?_, hns.trans (by rw [hxlen]), heq.trans hxlen.symm, hnx, hny⟩
      simp only [Sample.resume, hset]
      rw [if_pos (by rw [heq]; exact sub_self _)]
    · have hne : (st.n_samples : Int) ≠ (s.y.length : Int) := by
        exact_mod_cast fun h => heq (by exact_mod_cast h.symm)
      refine ⟨_, resume_eq f s st hset hne x0 xs hx, ?_, ?_, hnx, ?_⟩
      · show s.n_samples = some s.x.length
        rw [hns, hxlen]
      · have h1 : (List.drop s.y.length (x0 :: xs)).length
            = (x0 :: xs).length - s.y.length := List.length_drop _ _
        have h2 : s.y.length ≤ (x0 :: xs).length := by rw [hx] at hxlen; omega
        simp only [List.length_append, List.length_map, h1]
        rw [hx]
        omega
      · show s.n_y = some (cols (s.y ++ _))
        rw [hny]
        have : s.y ≠ [] := by
          intro h
          rw [h] at hy1
          simp at hy1
        rw [cols_append_left _ _ this]
  · have hxb : ((s0 :: rest).all (fun s => s.n_x = s0.n_x)) = true := by
      simp only [List.all_eq_true, decide_eq_true_eq]
      exact hx
    have hyb : ((s0 :: rest).all (fun s => s.n_y = s0.n_y)) = true := by
      simp only [List.all_eq_true, decide_eq_true_eq]
      exact hy
    have hflatx : ((s0 :: rest).map Sample.x).flatten
        = s0.x ++ (rest.map Sample.x).flatten := by simp
    have hflaty : ((s0 :: rest).map Sample.y).flatten
        = s0.y ++ (rest.map Sample.y).flatten := by simp
    have hmapm : (s0 :: rest).mapM Sample.n_samples
        = some ((s0 :: rest).map (fun s => s.x.length)) :=
      mapM_n_samples_eq _ _ (fun q hq => (hcons q hq).1)
    have hjoin : Sample.join (s0 :: rest) = Except.ok { Sample.empty with
        n_x := s0.n_x, n_y := s0.n_y,
        x := ((s0 :: rest).map Sample.x).flatten,
        x_ranges := some (ranges (((s0 :: rest).map Sample.x).flatten)),
        y := ((s0 :: rest).map Sample.y).flatten,
        x_names := s0.x_names, y_names := s0.y_names,
        n_samples := ((s0 :: rest).mapM Sample.n_samples).map List.sum } := by
      simp only [Sample.join, hxb, hyb, if_true]
    refine ⟨_, hjoin, ?_, ?_, ?_, ?_⟩
    · show (((s0 :: rest).mapM Sample.n_samples).map List.sum)
        = some (((s0 :: rest).map Sample.x).flatten).length
      rw [hmapm, List.length_flatten, List.map_map]
      rfl
    · show (((s0 :: rest).map Sample.y).flatten).length
        = (((s0 :: rest).map Sample.x).flatten).length
      rw [List.length_flatten, List.length_flatten]
      congr 1
      rw [List.map_map, List.map_map]
      exact List.map_congr_left (fun q hq => (hcons q hq).2.1)
    · show s0.n_x = some (cols (((s0 :: rest).map Sample.x).flatten))
      rw [hflatx, cols_append_left _ _ hx0]
      exact (hcons s0 (List.mem_cons_self _ _)).2.2.1
    · show s0.n_y = some (cols (((s0 :: rest).map Sample.y).flatten))
      rw [hflaty, cols_append_left _ _ hy0]
      exact (hcons s0 (List.mem_cons_self _ _)).2.2.2

/-- Claim C6: for a non-empty list of compatible samples, join returns a
sample whose x and y are the row-wise concatenations in input order with
each input contiguous and in original order (the segment equation),
whose n_samples is the sum of the input counts, whose names come from
the first input, and whose x_ranges pair, per column, a lower bound
attained in that column with an upper bound attained in that column of
the concatenated x. -/
theorem c6_join_result {α : Type} [LinearOrder α] (s0 : Sample α)
    (rest : List (Sample α)) (w : Nat)
    (hx : ∀ s ∈ s0 :: rest, s.n_x = s0.n_x)
    (hy : ∀ s ∈ s0 :: rest, s.n_y = s0.n_y)
    (hns : ∀ s ∈ s0 :: rest, (Sample.n_samples s).isSome = true)
    (hw : ∀ s ∈ s0 :: rest, ∀ r ∈ s.x, r.length = w)
    (hne : s0.x ≠ []) :
    ∃ out, Sample.join (s0 :: rest) = Except.ok out ∧
      out.x = ((s0 :: rest).map Sample.x).flatten ∧
      out.y = ((s0 :: rest).map Sample.y).flatten ∧
      (∀ i (hi : i < (s0 :: rest).length),
        (out.x.drop ((((s0 :: rest).take i).map (fun s => s.x.length)).sum)).take
            (s0 :: rest)[i].x.length = (s0 :: rest)[i].x) ∧
      out.x_names = s0.x_names ∧ out.y_names = s0.y_names ∧
      out.n_samples
        = some (((s0 :: rest).map (fun s => (Sample.n_samples s).getD 0)).sum) ∧
      (∃ rg, out.x_ranges = some rg ∧ rg.length = w ∧
        ∀ (d : α) (j : Nat), j < w →
          (∀ r ∈ out.x, (rg.getD j (d, d)).1 ≤ r.getD j d ∧
            r.getD j d ≤ (rg.getD j (d, d)).2) ∧
          (∃ r ∈ out.x, (rg.getD j (d, d)).1 = r.getD j d) ∧
          (∃ r ∈ out.x, (rg.getD j (d, d)).2 = r.getD j d)) := by
  have hxb : ((s0 :: rest).all (fun s => s.n_x = s0.n_x)) = true := by
    simp only [List.all_eq_true, decide_eq_true_eq]
    exact hx
  have hyb : ((s0 :: rest).all (fun s => s.n_y = s0.n_y)) = true := by
    simp only [List.all_eq_true, decide_eq_true_eq]
    exact hy
  have hjoin : Sample.join (s0 :: rest) = Except.ok { Sample.empty with
      n_x := s0.n_x, n_y := s0.n_y,
      x := ((s0 :: rest).map Sample.x).flatten,
      x_ranges := some (ranges (((s0 :: rest).map Sample.x).flatten)),
      y := ((s0 :: rest).map Sample.y).flatten,
      x_names := s0.x_names, y_names := s0.y_names,
      n_samples := ((s0 :: rest).mapM Sample.n_samples).map List.sum } := by
    simp only [Sample.join, hxb, hyb, if_true]
  have hX : ((s0 :: rest).map Sample.x).flatten ≠ [] := by
    rw [List.map_cons, List.flatten_cons]
    exact List.append_ne_nil_of_left_ne_nil hne _
  have hwX : ∀ r ∈ ((s0 :: rest).map Sample.x).flatten, r.length = w := by
    intro r hr
    obtain ⟨l, hl, hrl⟩ := List.mem_flatten.mp hr
    obtain ⟨s, hs, rfl⟩ := List.mem_map.mp hl
    exact hw s hs r hrl
  have hminlen : (colMin (((s0 :: rest).map Sample.x).flatten)).length = w :=
    colFold_length min w _ hX hwX
  have hmaxlen : (colMax (((s0 :: rest).map Sample.x).flatten)).length = w :=
    colFold_length max w _ hX hwX
  have hrglen : (ranges (((s0 :: rest).map Sample.x).flatten)).length = w := by
    rw [ranges, List.length_zip, hminlen, hmaxlen, min_self]
  have hrg : ∀ (d : α) (j : Nat), j < w →
      (ranges (((s0 :: rest).map Sample.x).flatten)).getD j (d, d)
        = ((colMin (((s0 :: rest).map Sample.x).flatten)).getD j d,
           (colMax (((s0 :: rest).map Sample.x).flatten)).getD j d) := by
    intro d j hj
    rw [List.getD_eq_getElem _ _ (by rw [hrglen]; exact hj),
      List.getD_eq_getElem _ d (by rw [hminlen]; exact hj),
      List.getD_eq_getElem _ d (by rw [hmaxlen]; exact hj)]
    exact List.getElem_zip
  refine ⟨_, hjoin, rfl, rfl, ?_, rfl, rfl, ?_, ⟨_, rfl, hrglen, ?_⟩⟩
  · intro i hi
    have hi' : i < ((s0 :: rest).map Sample.x).length := by simpa using hi
    have h1 : (((s0 :: rest).map Sample.x).take i).map List.length
        = ((s0 :: rest).take i).map (fun s => s.x.length) := by
      rw [← List.map_take, List.map_map]
      rfl
    have h2 : ((s0 :: rest).map Sample.x)[i] = (s0 :: rest)[i].x :=
      List.getElem_map Sample.x
    have := flatten_segment ((s0 :: rest).map Sample.x) i hi'
    rw [h1, h2] at this
    exact this
  · show (((s0 :: rest).mapM Sample.n_samples).map List.sum) = _
    rw [mapM_n_samples_eq (fun s => (Sample.n_samples s).getD 0) _
      (fun q hq => by
        obtain ⟨k, hk⟩ := Option.isSome_iff_exists.mp (hns q hq)
        simp [hk])]
    rfl
  · intro d j hj
    rw [hrg d j hj]
    refine ⟨fun r hr => ⟨?_, ?_⟩, ?_, ?_⟩
    · exact colMin_le w d _ hwX r hr j hj
    · exact colMax_ge w d _ hwX r hr j hj
    · obtain ⟨r, hr, heq⟩ := colMin_mem w d _ hX hwX j hj
      exact ⟨r, hr, heq⟩
    · obtain ⟨r, hr, heq⟩ := colMax_mem w d _ hX hwX j hj
      exact ⟨r, hr, heq⟩


/-- Claim C1 witness: a concrete three-row generation over the rationals,
cut after one row, resumed to the identical y matrix. -/
theorem c1_witness :
    ∃ full mid res,
      (Sample.empty : Sample ℚ).generate idFun ([(1 : ℚ)] :: [[2], [3]]).length
          ["a"] ([(1 : ℚ)] :: [[2], [3]]) = some full ∧
      (Sample.empty : Sample ℚ).load
          (fsDir ⟨([(1 : ℚ)] :: [[2], [3]]).length⟩
            ⟨some ["a"], [(1 : ℚ)] :: [[2], [3]]⟩ ⟨none, full.y.take 1⟩)
          "d" none .all .all false (fun _ => true) = Except.ok mid ∧
      mid.resume idFun = some res ∧
      res.y = full.y :=
  c1_resume_matches_generate idFun ["a"] [1] [[2], [3]] 1 none (fun _ => true)
    (by decide) (by decide) (by decide)

/-- Claim C4 witness: joining two samples that disagree on n_x raises. -/
theorem c4_witness : ∃ e, Sample.join [c4sA, c4sB] = Except.error e :=
  (c4_join_raises_iff_mismatch c4sA [c4sB]).mpr
    ⟨c4sB, List.mem_cons_of_mem c4sA (List.mem_cons_self c4sB []),
      Or.inl (by decide)⟩

/-- Claim C3 witness: loading a concrete one-row directory yields a
consistent sample. -/
theorem c3_witness :
    ∃ out, (Sample.empty : Sample ℚ).load
        (fsDir ⟨1⟩ ⟨some ["a"], [[1]]⟩ ⟨some ["u"], [[2]]⟩) "d" none .all .all
        false (fun _ => true) = Except.ok out ∧ consistent out :=
  (c3_consistency_amended (μ := Unit)).1 Sample.empty ⟨1⟩ (some ["a"])
    (some ["u"]) [[1]] [[2]] (fun _ => true) rfl

/-- Claim C6 witness: joining a concrete compatible singleton list
succeeds. -/
theorem c6_witness : (Sample.join [c6s]).isOk = true := by
  obtain ⟨out, hout, _⟩ := c6_join_result c6s [] 2 (by simp) (by simp)
    (by intro s hs; rw [List.mem_singleton.mp hs]; rfl)
    (by intro s hs; rw [List.mem_singleton.mp hs]; decide) (by decide)
  rw [hout]
  rfl

/-- Claim C8 witness: the concrete three-row split partitions all rows. -/
theorem c8_witness :
    ((c8s.train_test_split c8rng (1 / 2) 0).x_train.getD []).length
      + ((c8s.train_test_split c8rng (1 / 2) 0).x_test.getD []).length
      = c8s.x.length :=
  (c8_train_test_split_pairing c8s c8rng c8rng (1 / 2) 0 (by decide)
    (by decide)).2.1

/-- Claim C9 witness: loading a concrete headerless three-column file
succeeds with the default split. -/
theorem c9_witness :
    ((Sample.empty : Sample ℚ).load c9fs "d" none .all .all false
      (fun _ => true)).isOk = true := by
  obtain ⟨out, hout, _⟩ := c9_single_file_default_split
    (Sample.empty : Sample ℚ) c9fs "d" .all .all (fun _ => true) 3
    (by decide) (by decide) (by decide) rfl rfl rfl (by omega) (by decide)
    (by decide)
  rw [hout]
  rfl

end PlanckEmu
